/- Verification of the makepkg process-execution and source-acquisition core.

   A shallow embedding of the relevant functions of the Rust sources
   (run.rs, sources/curl.rs, sources/git.rs, sources/mod.rs, pkgbuild.rs,
   makepkg.rs, error.rs) as executable Lean definitions, together with
   theorems settling the frozen claims C1..C10 about them. -/
import Mathlib

namespace Makepkg

/-! ## String helpers

The Rust code uses `str::split_once`, `str::rsplit`, `str::trim_end_matches`
and `str::split_whitespace`.  We embed them as executable functions on
`List Char` / `String`. -/

/-- Helper: `splitOnceList sep l` mirrors Rust `str::split_once`: splits `l` at the
first occurrence of `sep`, returning the parts before and after it. -/
def splitOnceList (sep : List Char) : List Char → Option (List Char × List Char)
  | [] => if sep = [] then some ([], []) else none
  | c :: l =>
    if sep.isPrefixOf (c :: l) then some ([], (c :: l).drop sep.length)
    else match splitOnceList sep l with
      | some (pre, post) => some (c :: pre, post)
      | none => none

/-- Rust `str::split_once` on `String`s. -/
def strSplitOnce (s sep : String) : Option (String × String) :=
  (splitOnceList sep.data s.data).map (fun p => (⟨p.1⟩, ⟨p.2⟩))

/-- Rust `str::contains` (for a pattern string). -/
def strContains (s pat : String) : Bool :=
  (splitOnceList pat.data s.data).isSome

/-- Fuelled worker for `stripRepPre` (the fuel keeps the recursion
structural, so concrete instances reduce in the kernel). -/
def stripRepPreGo (pat : List Char) : Nat → List Char → List Char
  | 0, l => l
  | fuel + 1, l =>
    if pat ≠ [] ∧ pat.isPrefixOf l then stripRepPreGo pat fuel (l.drop pat.length)
    else l

/-- Remove the repeated prefix `pat` from `l` (helper for `trim_end_matches`,
operating on reversed character lists). -/
def stripRepPre (pat l : List Char) : List Char :=
  stripRepPreGo pat l.length l

/-- Rust `str::trim_end_matches`: repeatedly removes the suffix `pat`. -/
def trimEndMatches (s pat : String) : String :=
  ⟨(stripRepPre pat.data.reverse s.data.reverse).reverse⟩

/-- Fuelled worker for `splitWhitespace`. -/
def splitWhitespaceGo : Nat → List Char → List (List Char)
  | 0, _ => []
  | _ + 1, [] => []
  | fuel + 1, c :: rest =>
    if c.isWhitespace then splitWhitespaceGo fuel rest
    else
      let word := rest.takeWhile (fun d => ¬ d.isWhitespace)
      (c :: word) :: splitWhitespaceGo fuel (rest.drop word.length)

/-- Rust `str::split_whitespace`. -/
def splitWhitespace (l : List Char) : List (List Char) :=
  splitWhitespaceGo l.length l

/-! ## Data model: `Source` (pkgbuild.rs) -/

/-- From `pkgbuild.rs`: `enum Fragment`. -/
inductive Fragment
  | revision (s : String)
  | branch (s : String)
  | commit (s : String)
  | tag (s : String)
deriving DecidableEq, Repr

/-- From `pkgbuild.rs`: `struct Source` (field `proto_prefix` is spelled
`protoPrefix` here). -/
structure Source where
  filenameOverride : Option String
  protoPrefix : Option String
  url : String
  fragment : Option Fragment
  query : Option String
deriving DecidableEq, Repr

/-- Rust `Source::protocol` (pkgbuild.rs:342-346): the explicit prefix, or the
part of the URL before `"://"`. -/
def Source.protocol (s : Source) : Option String :=
  s.protoPrefix.orElse (fun _ => (strSplitOnce s.url "://").map Prod.fst)

/-- Rust `Source::is_remote` (pkgbuild.rs:348-350). -/
def Source.is_remote (s : Source) : Bool :=
  strContains s.url "://"

/-- Modelled from the spec: `Source::is_download` is called by
`get_downloads` and `download_path` (sources/mod.rs) but its body is not
among the provided sources.  The spec's data model lists `is_remote()` and
§4.4 calls the sources it rejects "non-remote", so we model it as
`is_remote`: the URL contains a `"://"` scheme separator. -/
def Source.is_download (s : Source) : Bool :=
  s.is_remote

/-- Rust `Source::file_name` (pkgbuild.rs:352-363): the filename override if set,
otherwise the substring of the URL after the last `'/'`; with any trailing
`".git"` trimmed when the protocol is git. -/
def Source.file_name (s : Source) : String :=
  let filename :=
    match s.filenameOverride with
    | some f => f
    | none => ⟨(s.url.data.reverse.takeWhile (fun c => c ≠ '/')).reverse⟩
  if s.protocol = some "git" then trimEndMatches filename ".git" else filename

/-! ## Exit statuses and the pipeline wait order (run.rs) -/

/-- Rust `std::process::ExitStatus`, as its exit code (`none` = killed by a
signal). -/
structure ExitStatus where
  code : Option Nat
deriving DecidableEq, Repr

/-- Rust `ExitStatus::success`: exited with code 0. -/
def ExitStatus.success (s : ExitStatus) : Bool :=
  s.code == some 0

/-- The tail of `process_inner` (run.rs:355-366): after the stream loop, the
downstream child (`child2`, present only for pipelines) is waited first and
its status returned if it is a failure; otherwise the upstream child's
status is returned. -/
def process_inner_wait (child2 : Option ExitStatus) (child : ExitStatus) : ExitStatus :=
  match child2 with
  | some status => if !status.success then status else child
  | none => child

/-! ## Configuration and errors (config.rs, error.rs) -/

/-- From `sources/vcs.rs`: `enum VCSKind`. -/
inductive VCSKind
  | Git
  | SVN
  | Mercurial
  | Fossil
  | BZR
deriving DecidableEq, Repr

/-- From `config.rs`: a `(protocol, command-template)` download agent. -/
structure DownloadAgent where
  protocol : String
  command : String
deriving DecidableEq, Repr

/-- From `config.rs`: a configured VCS client, keyed by protocol. -/
structure VCSClient where
  protocol : String
deriving DecidableEq, Repr

/-- The parts of `config.rs`'s `Config` the download classifier reads. -/
structure Config where
  dl_agents : List DownloadAgent
  vcs_agents : List VCSClient
deriving DecidableEq, Repr

/-- From `error.rs:513-525`: `enum DownloadError` (the variants the embedded
functions construct;  `Command` carries the failing command's argv in place
of the Rust `CommandError`, and `RefNotFound` is the variant `extract_git`
constructs in sources/git.rs:134). -/
inductive DownloadError
  | SourceMissing (s : Source)
  | UnknownProtocol (s : Source)
  | UnknownVCSClient (s : Source)
  | Curl
  | Status (s : Source) (code : Nat)
  | Command (s : Source) (args : List String)
  | UnsupportedFragment (s : Source) (kind : VCSKind) (f : Fragment)
  | RemotesDiffer (s : Source) (url : String)
  | RefsDiffer (s : Source) (wanted resolved : String)
  | RefNotFound (s : Source) (f : Fragment)
  | NotCheckedOut (s : Source)
deriving DecidableEq, Repr

/-! ## C5: download classification (`get_downloads`, sources/mod.rs) -/

/-- Rust `get_vcs_tool` (sources/vcs.rs:84-91): the first configured VCS client
whose protocol equals the source's protocol. -/
def get_vcs_tool (cfg : Config) (s : Source) : Option VCSClient :=
  s.protocol.bind (fun p => cfg.vcs_agents.find? (fun a => a.protocol == p))

/-- Rust `get_download_tool` (sources/mod.rs:179-185): the first configured
download agent whose protocol equals the source's protocol. -/
def get_download_tool (cfg : Config) (s : Source) : Option DownloadAgent :=
  s.protocol.bind (fun p => cfg.dl_agents.find? (fun a => a.protocol == p))

/-- What the `get_downloads` loop body decides for one source. -/
inductive SourceClass
  | vcs (t : VCSClient)
  | found
  | agent (t : DownloadAgent)
  | err (e : DownloadError)
deriving DecidableEq, Repr

/-- The loop body of `get_downloads` (sources/mod.rs:159-174): VCS tool
first; then the local-path existence skip; then the local-only
"source missing" error; then the download-agent lookup; else "unknown
protocol".  `pathExists` stands for `download_path(dirs, source).exists()`. -/
def classify_source (cfg : Config) (pathExists : Bool) (s : Source) : SourceClass :=
  match get_vcs_tool cfg s with
  | some tool => .vcs tool
  | none =>
    if pathExists then .found
    else if !s.is_download then .err (.SourceMissing s)
    else match get_download_tool cfg s with
      | some tool => .agent tool
      | none => .err (.UnknownProtocol s)

/-- The two `BTreeMap` accumulators of `get_downloads`, flattened to
`(tool, source)` pairs in insertion order, plus the list of sources skipped
with a `FoundSource` notification. -/
structure Downloads where
  downloads : List (DownloadAgent × Source)
  vcs_downloads : List (VCSClient × Source)
  found : List Source
deriving DecidableEq, Repr

/-- The `get_downloads` loop (sources/mod.rs:159-174) over the source list,
threading the accumulators and stopping at the first error. -/
def get_downloads_go (cfg : Config) (ex : Source → Bool) (acc : Downloads) :
    List Source → Except DownloadError Downloads
  | [] => .ok acc
  | s :: rest =>
    match classify_source cfg (ex s) s with
    | .vcs t =>
      get_downloads_go cfg ex
        { acc with vcs_downloads := acc.vcs_downloads ++ [(t, s)] } rest
    | .found =>
      get_downloads_go cfg ex { acc with found := acc.found ++ [s] } rest
    | .agent t =>
      get_downloads_go cfg ex
        { acc with downloads := acc.downloads ++ [(t, s)] } rest
    | .err e => .error e

/-- Rust `get_downloads` (sources/mod.rs:134-177).  `ex s` abstracts
`download_path(dirs, s).exists()`. -/
def get_downloads (cfg : Config) (ex : Source → Bool) (srcs : List Source) :
    Except DownloadError Downloads :=
  get_downloads_go cfg ex ⟨[], [], []⟩ srcs

/-- From `makepkg.rs`: `struct FakeRoot` — the spawned `faked` child (as a pid)
and the announced session key. -/
structure FakeRoot where
  child : Nat
  key : String
deriving DecidableEq, Repr

/-- The effect of a destructor run. -/
inductive DropAction
  | kill (pid : Nat)
deriving DecidableEq, Repr

/-- Rust `impl Drop for FakeRoot` (makepkg.rs:16-20): unconditionally
`self.child.kill()`. -/
def FakeRoot.dropEffect (fr : FakeRoot) : DropAction :=
  .kill fr.child

/-- Errors `Makepkg::fakeroot` can produce: the libfakeroot search failure
(run.rs:520-525), and the `unwrap` panics while parsing the daemon's
announcement (run.rs:539-541). -/
inductive FakeRootErr
  | FindLibfakeroot
  | KeyParsePanic
deriving DecidableEq, Repr

/-- The mutable state `Makepkg::fakeroot` touches: the memoized
`RefCell<Option<FakeRoot>>` slot, plus (for counting) the pids of every
`faked` daemon spawned so far. -/
structure FakeRootSt where
  fakeroot : Option FakeRoot
  spawned : List Nat
deriving DecidableEq, Repr

/-- The environment `Makepkg::fakeroot` interacts with: whether
`libfakeroot` is found on some `FAKEROOT_LIBDIRS` entry, and for the k-th
spawn of `faked --foreground`, its pid and the first line it prints
(`"key:..."`-shaped). -/
structure FakedOracle where
  libFound : Bool
  announce : Nat → String
  pid : Nat → Nat

/-- Rust `Makepkg::fakeroot` (run.rs:507-547): return the memoized key if the
slot is filled; otherwise check the library search path, spawn `faked`,
parse the key off the first line (`split_once(':')`), memoize, and return
it. -/
def fakeroot_call (o : FakedOracle) (st : FakeRootSt) :
    Except FakeRootErr String × FakeRootSt :=
  match st.fakeroot with
  | some fr => (.ok fr.key, st)
  | none =>
    if !o.libFound then (.error .FindLibfakeroot, st)
    else
      let k := st.spawned.length
      match strSplitOnce (o.announce k) ":" with
      | none => (.error .KeyParsePanic, st)
      | some (key, _) =>
        (.ok key,
          { fakeroot := some ⟨o.pid k, key⟩, spawned := st.spawned ++ [o.pid k] })

/-- Calling: `M` successive calls of `Makepkg::fakeroot` on one `Makepkg` value,
collecting the returned keys. -/
def fakeroot_calls (o : FakedOracle) : Nat → FakeRootSt →
    List (Except FakeRootErr String) × FakeRootSt
  | 0, st => ([], st)
  | n + 1, st =>
    let (r, st') := fakeroot_call o st
    let (rs, st'') := fakeroot_calls o n st'
    (r :: rs, st'')

/-- From `callback.rs`: `enum DownloadEvent`.  The Rust events carry the
`Download { n, total, source }` session struct; we track the session index
`n`, and elide `Progress`'s two `f64` byte counts (no claim mentions
them). -/
inductive DownloadEvent
  | DownloadStart (total : Nat)
  | Init (n : Nat)
  | Progress (n : Nat)
  | Completed (n : Nat)
  | Failed (n : Nat) (code : Nat)
  | DownloadEnd
deriving DecidableEq, Repr

/-! ## C2: bulk transfer completion (`handle_messages`, curl.rs:167-211) -/

/-- File-system operations `handle_messages` could perform on the transfer
files.  The embedded function only ever emits `rename` (curl.rs:193-197);
`remove` exists so "never deleted" is expressible. -/
inductive FsOp
  | rename (src dst : String)
  | remove (p : String)
deriving DecidableEq, Repr

/-- The per-transfer `Handle` fields `handle_messages` reads
(curl.rs:24-32). -/
structure MsgHandle where
  session : Nat
  source : Source
  temp_path : String
  final_path : String
deriving DecidableEq, Repr

/-- An error stored into `Handle::err`: either a typed `DownloadError`, or
an I/O / event-delivery failure of some other error type. -/
inductive HandleErr
  | dl (e : DownloadError)
  | io
deriving DecidableEq, Repr

/-- What one `handle_messages` iteration did for one finished transfer. -/
structure MsgEffects where
  events : List DownloadEvent
  fsOps : List FsOp
  err : Option HandleErr
deriving DecidableEq, Repr

/-- One iteration of the `handle_messages` closure (curl.rs:168-209) for a
handle whose transfer finished: `resOk` is `m.result_for2` being `Ok`,
`response` is `handle.response_code()`, `failedEvOk`/`completedEvOk` are
whether delivering the `Failed`/`Completed` event to the callback
succeeded, `renameOk` whether the rename succeeded. -/
def handle_message (resOk : Bool) (response : Nat)
    (failedEvOk completedEvOk renameOk : Bool) (h : MsgHandle) : MsgEffects :=
  if !resOk then ⟨[], [], some (.dl .Curl)⟩
  else if !(200 ≤ response ∧ response < 300) then
    if failedEvOk then
      ⟨[.Failed h.session response], [], some (.dl (.Status h.source response))⟩
    else ⟨[], [], some .io⟩
  else if !renameOk then ⟨[], [], some .io⟩
  else if completedEvOk then ⟨[.Completed h.session], [.rename h.temp_path h.final_path], none⟩
  else ⟨[], [.rename h.temp_path h.final_path], some .io⟩

/-- One delivery during an outer-loop iteration: a progress callback for
session `n`, or session `n`'s transfer finishing (curl result ok/err, HTTP
response code). -/
inductive RoundMsg
  | progress (n : Nat)
  | done (n : Nat) (resOk : Bool) (response : Nat)
deriving DecidableEq, Repr

/-- A first error found on a handle (`Handle::err`), per session. -/
inductive CurlErr
  | curl (n : Nat)
  | status (n : Nat) (code : Nat)
deriving DecidableEq, Repr

/-- How a modelled `download_curl_sources` run ended. -/
inductive CurlOutcome
  | ok
  | errEnded (e : CurlErr)
  | errNoEnd
  | outOfRounds
deriving DecidableEq, Repr

/-- The event trace of a run together with its outcome.  `errNoEnd` is a
`?`-propagated early return (curl.rs:95, `make_payload(..)?`): the function
returns without emitting `DownloadEnd`.  `errEnded` is the handled error
path (curl.rs:108-114) which does emit `DownloadEnd`.  `outOfRounds` means
the oracle's round list ran out while transfers were still pending. -/
structure CurlRun where
  trace : List DownloadEvent
  outcome : CurlOutcome
deriving DecidableEq, Repr

/-- Result of the inner pool-filling `while` (curl.rs:92-101). -/
structure FillResult where
  queue : List Nat
  active : List Nat
  trace : List DownloadEvent
  failed : Bool
deriving DecidableEq, Repr

/-- The inner `while running < max_downloads && !sources.is_empty()` loop
(curl.rs:92-101): pop a source, build its payload — `make_payload` emits
`Init` (curl.rs:160) before the handle is added — and add it to the pool;
a payload failure propagates out with `?`. -/
def fill_pool (payloadOk : Nat → Bool) :
    List Nat → List Nat → List DownloadEvent → FillResult
  | [], active, trace => ⟨[], active, trace, false⟩
  | s :: rest, active, trace =>
    if active.length < 8 then
      if payloadOk s then
        fill_pool payloadOk rest (active ++ [s]) (trace ++ [.Init s])
      else ⟨s :: rest, active, trace, true⟩
    else ⟨s :: rest, active, trace, false⟩

/-- One outer-loop iteration's deliveries: `curlm.perform()`'s progress
callbacks followed by `handle_messages` (curl.rs:103-106).  A finished
transfer leaves the running set; an out-of-range status emits `Failed` and
records a `Status` error, a curl-level failure records an error silently, a
2xx status emits `Completed` (the rename is elided here; see
`handle_message`).  The first error recorded wins (curl.rs:108). -/
def handle_round :
    List RoundMsg → List Nat → List DownloadEvent → Option CurlErr →
    List Nat × List DownloadEvent × Option CurlErr
  | [], active, trace, err => (active, trace, err)
  | .progress n :: rest, active, trace, err =>
    if n ∈ active then handle_round rest active (trace ++ [.Progress n]) err
    else handle_round rest active trace err
  | .done n resOk response :: rest, active, trace, err =>
    if n ∈ active then
      if !resOk then
        handle_round rest (active.erase n) trace (err <|> some (.curl n))
      else if !(200 ≤ response ∧ response < 300) then
        handle_round rest (active.erase n) (trace ++ [.Failed n response])
          (err <|> some (.status n response))
      else
        handle_round rest (active.erase n) (trace ++ [.Completed n]) err
    else handle_round rest active trace err

/-- The outer `while running > 0 || !sources.is_empty()` loop
(curl.rs:91-115) and its exit (curl.rs:117-119): on exit or on a found
handle error, `DownloadEnd` is emitted; a pool-filling `?` failure returns
without it. -/
def dl_loop (payloadOk : Nat → Bool) :
    List (List RoundMsg) → List Nat → List Nat → List DownloadEvent → CurlRun
  | [], queue, active, trace =>
    if queue = [] ∧ active = [] then ⟨trace ++ [.DownloadEnd], .ok⟩
    else ⟨trace, .outOfRounds⟩
  | r :: rest, queue, active, trace =>
    if queue = [] ∧ active = [] then ⟨trace ++ [.DownloadEnd], .ok⟩
    else if (fill_pool payloadOk queue active trace).failed then
      ⟨(fill_pool payloadOk queue active trace).trace, .errNoEnd⟩
    else
      match handle_round r (fill_pool payloadOk queue active trace).active
          (fill_pool payloadOk queue active trace).trace none with
      | (_, tr, some e) => ⟨tr ++ [.DownloadEnd], .errEnded e⟩
      | (a, tr, none) =>
        dl_loop payloadOk rest (fill_pool payloadOk queue active trace).queue a tr

/-- Rust `download_curl_sources` (curl.rs:73-120): empty batches return before
any event; otherwise `DownloadStart(total)` is emitted (curl.rs:89) and the
loop runs.  Sessions are numbered `1..total` in pop order
(`total - sources.len()` after each pop, curl.rs:95). -/
def download_curl_sources (payloadOk : Nat → Bool)
    (rounds : List (List RoundMsg)) (total : Nat) : CurlRun :=
  if total = 0 then ⟨[], .ok⟩
  else dl_loop payloadOk rounds (List.range' 1 total) [] [.DownloadStart total]

/-- Sessions whose `Init` occurs in the trace, accumulated onto `s`. -/
def accInits (s : List Nat) : List DownloadEvent → List Nat
  | [] => s
  | .Init n :: tr => accInits (n :: s) tr
  | _ :: tr => accInits s tr

/-- Left-to-right check that every per-session `Progress`/`Completed`/
`Failed` is preceded by that session's `Init` (starting from sessions
`s` already initialized). -/
def initSeen (s : List Nat) : List DownloadEvent → Bool
  | [] => true
  | .Init n :: tr => initSeen (n :: s) tr
  | .Progress n :: tr => s.contains n && initSeen s tr
  | .Completed n :: tr => s.contains n && initSeen s tr
  | .Failed n _ :: tr => s.contains n && initSeen s tr
  | .DownloadStart _ :: tr => initSeen s tr
  | .DownloadEnd :: tr => initSeen s tr

/-- Number of `DownloadStart` events in a trace. -/
def countStarts (tr : List DownloadEvent) : Nat :=
  tr.countP (fun e => match e with | .DownloadStart _ => true | _ => false)

/-- The loop invariant of `download_curl_sources`' outer loop: every event
so far is well-ordered (`Init` before the session's other events), every
active session has been `Init`ed, no `DownloadEnd` has been emitted, and
the trace opens with the batch's single `DownloadStart`. -/
def CurlInv (total : Nat) (active : List Nat) (trace : List DownloadEvent) : Prop :=
  initSeen [] trace = true ∧
  (∀ n ∈ active, n ∈ accInits [] trace) ∧
  DownloadEvent.DownloadEnd ∉ trace ∧
  trace.head? = some (.DownloadStart total) ∧
  countStarts trace = 1

/-- From `callback.rs`: `enum CommandOutput` — the capture policy chosen by the
callback for one command (the `File` handle is elided; the policy tag is
what the loop matches on). -/
inductive CommandOutput
  | Inherit
  | Null
  | Callback
  | File
deriving DecidableEq, Repr

/-- The three output-stream poll tokens (run.rs:122-124). -/
inductive Tok
  | token_out
  | token_err
  | token_err2
deriving DecidableEq, Repr

/-- The configuration `process_inner` fixed before the loop: each process's
capture policy (`CommandData::how_output`), whether a caller buffer and a
log file were supplied, and the effective `ignore_stdout`. -/
structure RunCfg where
  how_output1 : CommandOutput
  how_output2 : CommandOutput
  hasOutput : Bool
  hasLogfile : Bool
  ignore_stdout : Bool
deriving DecidableEq, Repr

/-- The sinks a chunk can be fanned out to. -/
inductive Sink
  | outputBuf
  | logfile
  | term
  | cb (id : Nat)
  | fileSink (id : Nat)
deriving DecidableEq, Repr

/-- A recorded write: a data chunk, or the synthetic `b'\n'` written at
stream close (run.rs:332-345). -/
inductive WriteRec
  | chunk (s : Sink) (bytes : List Nat)
  | synthNl (s : Sink)
deriving DecidableEq, Repr

/-- The per-chunk fan-out of `match how_output` (run.rs:302-319), for the
process with callback id `id`. -/
def forwardChunk (how : CommandOutput) (id : Nat) (bytes : List Nat) :
    List WriteRec :=
  match how with
  | .Inherit => [.chunk .term bytes]
  | .Null => []
  | .Callback => [.chunk (.cb id) bytes]
  | .File => [.chunk (.fileSink id) bytes]

/-- The `match how_output` at stream close (run.rs:333-344): where the
synthetic newline goes. -/
def forwardSynthNl (how : CommandOutput) (id : Nat) : List WriteRec :=
  match how with
  | .Inherit => [.synthNl .term]
  | .Null => []
  | .Callback => [.synthNl (.cb id)]
  | .File => [.synthNl (.fileSink id)]

/-- A readiness event as the loop sees it: a read chunk on a token's
socket, or the token's stream closing (`is_read_closed`). -/
inductive StreamEv
  | data (t : Tok) (bytes : List Nat)
  | closed (t : Tok)
deriving DecidableEq, Repr

/-- The loop state: the single shared `ends_with_nl` flag (run.rs:240) and
the writes performed so far. -/
structure LoopSt where
  ends_with_nl : Bool
  writes : List WriteRec
deriving DecidableEq, Repr

/-- Which `CommandData` a token selects (run.rs:272-276): `token_err2` is
the second process, everything else the first. -/
def streamData (cfg : RunCfg) (t : Tok) : CommandOutput × Nat :=
  if t = .token_err2 then (cfg.how_output2, 2) else (cfg.how_output1, 1)

/-- One loop-body step (run.rs:286-346): on data, write the caller buffer
(token_out only), the log file (any token), and — unless this is stdout
with `ignore_stdout` — update `ends_with_nl` from the chunk's last byte and
forward through the policy; on close, emit the synthetic newline only when
the token is `token_err` and the shared flag is false. -/
def process_ev (cfg : RunCfg) (st : LoopSt) : StreamEv → LoopSt
  | .data t bytes =>
    match bytes.getLast? with
    | none => st
    | some lastByte =>
      let w1 := if t = .token_out ∧ cfg.hasOutput then
          [WriteRec.chunk .outputBuf bytes] else []
      let w2 := if cfg.hasLogfile then [WriteRec.chunk .logfile bytes] else []
      if t ≠ .token_out ∨ ¬cfg.ignore_stdout then
        { ends_with_nl := lastByte == 10,
          writes := st.writes ++ w1 ++ w2 ++
            forwardChunk (streamData cfg t).1 (streamData cfg t).2 bytes }
      else { st with writes := st.writes ++ w1 ++ w2 }
  | .closed t =>
    if t = .token_err ∧ ¬st.ends_with_nl then
      { st with writes := st.writes ++ forwardSynthNl cfg.how_output1 1 }
    else st

/-- One `process_inner` invocation's output loop over a schedule of
readiness events (`ends_with_nl` starts `true`, run.rs:240). -/
def process_run (cfg : RunCfg) (evs : List StreamEv) : LoopSt :=
  evs.foldl (process_ev cfg) ⟨true, []⟩

/-- Number of synthetic newlines among the recorded writes. -/
def countSynthNl (ws : List WriteRec) : Nat :=
  ws.countP (fun w => match w with | .synthNl _ => true | _ => false)

/-- From `lib.rs:31`: `TOOL_NAME` is the crate name. -/
def TOOL_NAME : String :=
  "makepkg"

/-- One git invocation as built in sources/git.rs: argv after `git`, the
environment entries set with `.env(..)`, and the `.current_dir(..)` if
any. -/
structure GitCmd where
  args : List String
  env : List (String × String)
  cwd : Option String
deriving DecidableEq, Repr

/-- The environment `download_git` (sources/git.rs:14-73) interacts with:
`path.exists() && path.join("objects").exists()`, the `GITFLAGS`
environment variable, whether the clone/fetch succeed, and the output of
`git config --get remote.origin.url` (`none` = that command failed). -/
structure GitDownloadWorld where
  mirrorExists : Bool
  gitflags : Option String
  cloneOk : Bool
  remoteUrlResult : Option String
  fetchOk : Bool
deriving Repr

/-- Rust `download_git` (sources/git.rs:14-73). -/
def download_git (w : GitDownloadWorld) (dlPath : String) (hold_ver : Bool)
    (source : Source) : List GitCmd × Except DownloadError Unit :=
  if !w.mirrorExists then
    let flags := match w.gitflags with
      | some v => (splitWhitespace v.data).map (fun l => (⟨l⟩ : String))
      | none => ["--mirror"]
    let cmd : GitCmd := ⟨["clone", "--origin=origin"] ++ flags ++
        ["--", source.url, dlPath], [("GIT_TERMINAL_PROMPT", "0")], none⟩
    if w.cloneOk then ([cmd], .ok ())
    else ([cmd], .error (.Command source cmd.args))
  else if !hold_ver then
    let confCmd : GitCmd := ⟨["config", "--get", "remote.origin.url"], [],
      some dlPath⟩
    match w.remoteUrlResult with
    | none => ([confCmd], .error (.Command source confCmd.args))
    | some remote_url =>
      if trimEndMatches remote_url ".git" ≠ trimEndMatches source.url ".git" then
        ([confCmd], .error (.RemotesDiffer source remote_url))
      else
        let fetchCmd : GitCmd := ⟨["fetch", "--all", "-p"],
          [("GIT_TERMINAL_PROMPT", "0")], some dlPath⟩
        if w.fetchOk then ([confCmd, fetchCmd], .ok ())
        else ([confCmd, fetchCmd], .error (.Command source fetchCmd.args))
  else ([], .ok ())

/-- The environment `extract_git` (sources/git.rs:75-163) interacts with:
`srcpath.exists()`, whether the initial fetch/clone succeeds, the output of
`git tag -l --format=%(tag)` (`none` = that command failed), and whether
the checkout succeeds. -/
structure GitExtractWorld where
  srcpathExists : Bool
  cmd1Ok : Bool
  tagOutput : Option String
  checkoutOk : Bool
deriving Repr

/-- The `match &source.fragment` of sources/git.rs:108-120: the ref to
check out, or the unsupported fragment (`Revision`). -/
def gitRefOf : Option Fragment → Except Fragment String
  | some (.commit r) => .ok r
  | some (.tag r) => .ok r
  | some (.branch r) => .ok ("origin/" ++ r)
  | some (.revision r) => .error (.revision r)
  | none => .ok "origin/HEAD"

/-- The tail of `extract_git` (sources/git.rs:147-160): the checkout runs
unless the ref is the (never-matching, lowercase) literal `"origin/head"`
and this is a fresh clone. -/
def git_checkout_step (w : GitExtractWorld) (source : Source)
    (srcpath gitref : String) (updating : Bool) (cmds : List GitCmd) :
    List GitCmd × Except DownloadError Unit :=
  if gitref ≠ "origin/head" ∨ updating then
    let co : GitCmd := ⟨["checkout", "--force", "--no-track", "-B",
      TOOL_NAME, gitref, "--"], [], some srcpath⟩
    if w.checkoutOk then (cmds ++ [co], .ok ())
    else (cmds ++ [co], .error (.Command source co.args))
  else (cmds, .ok ())

/-- Rust `extract_git` (sources/git.rs:75-163). -/
def extract_git (w : GitExtractWorld) (srcdir srcdest : String)
    (source : Source) : List GitCmd × Except DownloadError Unit :=
  let srcpath := srcdir ++ "/" ++ source.file_name
  let cmd1 : GitCmd :=
    if w.srcpathExists then ⟨["fetch"], [], some srcpath⟩
    else ⟨["clone", "--origin=origin", "-s",
        srcdest ++ "/" ++ source.file_name, source.file_name],
      [("GIT_TERMINAL_PROMPT", "0")], some srcdir⟩
  if !w.cmd1Ok then ([cmd1], .error (.Command source cmd1.args))
  else
    match gitRefOf source.fragment with
    | .error f => ([cmd1], .error (.UnsupportedFragment source .Git f))
    | .ok gitref =>
      match source.fragment with
      | some (Fragment.tag t) =>
        let tagCmd : GitCmd := ⟨["tag", "-l", "--format=%(tag)", gitref], [],
          some srcpath⟩
        match w.tagOutput with
        | none => ([cmd1, tagCmd], .error (.Command source tagCmd.args))
        | some tagname =>
          if tagname = "" then
            ([cmd1, tagCmd], .error (.RefNotFound source (.tag t)))
          else if tagname ≠ gitref then
            ([cmd1, tagCmd], .error (.RefsDiffer source gitref tagname))
          else
            git_checkout_step w source srcpath gitref w.srcpathExists
              [cmd1, tagCmd]
      | _ =>
        git_checkout_step w source srcpath gitref w.srcpathExists [cmd1]

/-- The substring after the last `'/'`, written the way the claim reads
(scan left to right, restarting after each slash). -/
def lastSegmentSpec (l : List Char) : List Char :=
  l.foldl (fun acc c => if c = '/' then [] else acc ++ [c]) []

/-- C10's description of `file_name`, written from the claim's words: the
filename override when set, otherwise the substring of the URL after its
last `'/'`; and exactly when the protocol is `"git"`, any trailing `".git"`
suffix is additionally stripped. -/
def file_name_spec (s : Source) : String :=
  let base :=
    match s.filenameOverride with
    | some f => f
    | none => ⟨lastSegmentSpec s.url.data⟩
  if s.protocol = some "git" then trimEndMatches base ".git" else base

/-! ## Theorems -/

theorem stripRepPreGo_eq (pat : List Char) :
    ∀ fuel l, l.length ≤ fuel → stripRepPreGo pat fuel l = stripRepPre pat l := by
  intro fuel
  induction fuel using Nat.strong_induction_on with
  | _ fuel ih =>
    intro l hl
    match fuel, l with
    | 0, l =>
      interval_cases hlen : l.length
      have : l = [] := List.eq_nil_of_length_eq_zero hlen
      subst this
      rfl
    | fuel + 1, [] =>
      have hpre : ∀ q : List Char, q.isPrefixOf ([] : List Char) = true → q = [] := by
        intro q hq
        exact List.prefix_nil.mp (List.isPrefixOf_iff_prefix.mp hq)
      simp only [stripRepPreGo, stripRepPre, List.length_nil]
      by_cases hc : pat ≠ [] ∧ pat.isPrefixOf ([] : List Char)
      · exact absurd (hpre pat hc.2) hc.1
      · rw [if_neg hc]
    | fuel + 1, c :: rest =>
      simp only [stripRepPreGo, stripRepPre, List.length_cons]
      by_cases hc : pat ≠ [] ∧ pat.isPrefixOf (c :: rest)
      · rw [if_pos hc, if_pos hc]
        have hplen : 0 < pat.length := List.length_pos.mpr hc.1
        have hple : pat.length ≤ (c :: rest).length :=
          (List.isPrefixOf_iff_prefix.mp hc.2).length_le
        have hdrop : ((c :: rest).drop pat.length).length ≤ fuel := by
          simp only [List.length_drop, List.length_cons] at *
          omega
        have hdrop' : ((c :: rest).drop pat.length).length ≤ rest.length := by
          simp only [List.length_drop, List.length_cons]
          omega
        have hrl : rest.length < fuel + 1 := by
          simp only [List.length_cons] at hl
          omega
        rw [ih fuel (Nat.lt_succ_self _) _ hdrop, ih rest.length hrl _ hdrop']
      · rw [if_neg hc, if_neg hc]

theorem stripRepPre_unfold (pat l : List Char) :
    stripRepPre pat l =
      if pat ≠ [] ∧ pat.isPrefixOf l then stripRepPre pat (l.drop pat.length)
      else l := by
  match l with
  | [] =>
    have hpre : ∀ q : List Char, q.isPrefixOf ([] : List Char) = true → q = [] := by
      intro q hq
      exact List.prefix_nil.mp (List.isPrefixOf_iff_prefix.mp hq)
    by_cases hc : pat ≠ [] ∧ pat.isPrefixOf ([] : List Char)
    · exact absurd (hpre pat hc.2) hc.1
    · rw [if_neg hc]
      rfl
  | c :: rest =>
    show stripRepPreGo pat (rest.length + 1) (c :: rest) = _
    simp only [stripRepPreGo]
    by_cases hc : pat ≠ [] ∧ pat.isPrefixOf (c :: rest)
    · rw [if_pos hc, if_pos hc]
      have hplen : 0 < pat.length := List.length_pos.mpr hc.1
      have hdrop : ((c :: rest).drop pat.length).length ≤ rest.length := by
        simp only [List.length_drop, List.length_cons]
        omega
      exact stripRepPreGo_eq pat rest.length _ hdrop
    · rw [if_neg hc, if_neg hc]

theorem get_downloads_go_append (cfg : Config) (ex : Source → Bool) :
    ∀ (l1 l2 : List Source) (acc : Downloads),
      get_downloads_go cfg ex acc (l1 ++ l2) =
        match get_downloads_go cfg ex acc l1 with
        | .ok a => get_downloads_go cfg ex a l2
        | .error e => .error e := by
  intro l1
  induction l1 with
  | nil => intro l2 acc; rfl
  | cons s rest ih =>
    intro l2 acc
    simp only [List.cons_append, get_downloads_go]
    cases classify_source cfg (ex s) s with
    | vcs t => exact ih l2 _
    | found => exact ih l2 _
    | agent t => exact ih l2 _
    | err e => rfl

/-- C5 (confirmed): each source is classified in this order: a recognized
VCS tool puts it in the VCS class; otherwise a source present at its local
download path is skipped with a "found" notification and joins no class;
otherwise a non-download source is a hard `SourceMissing` error; otherwise
a source with a matching download agent joins that agent's class, and one
with no matching agent is an `UnknownProtocol` error (sources/mod.rs:159-174). -/
theorem get_downloads_classification (cfg : Config) (ex : Source → Bool)
    (pre : List Source) (s : Source) (acc : Downloads)
    (hpre : get_downloads cfg ex pre = .ok acc) :
    (∀ t, get_vcs_tool cfg s = some t →
      get_downloads cfg ex (pre ++ [s]) =
        .ok { acc with vcs_downloads := acc.vcs_downloads ++ [(t, s)] }) ∧
    (get_vcs_tool cfg s = none → ex s = true →
      get_downloads cfg ex (pre ++ [s]) =
        .ok { acc with found := acc.found ++ [s] }) ∧
    (get_vcs_tool cfg s = none → ex s = false → s.is_download = false →
      get_downloads cfg ex (pre ++ [s]) = .error (.SourceMissing s)) ∧
    (∀ t, get_vcs_tool cfg s = none → ex s = false → s.is_download = true →
      get_download_tool cfg s = some t →
      get_downloads cfg ex (pre ++ [s]) =
        .ok { acc with downloads := acc.downloads ++ [(t, s)] }) ∧
    (get_vcs_tool cfg s = none → ex s = false → s.is_download = true →
      get_download_tool cfg s = none →
      get_downloads cfg ex (pre ++ [s]) = .error (.UnknownProtocol s)) := by
  have happ := get_downloads_go_append cfg ex pre [s] ⟨[], [], []⟩
  rw [get_downloads] at hpre
  rw [hpre] at happ
  refine ⟨?_, ?_, ?_, ?_, ?_⟩
  · intro t ht
    rw [get_downloads, happ]
    simp [get_downloads_go, classify_source, ht]
  · intro ht hex
    rw [get_downloads, happ]
    simp [get_downloads_go, classify_source, ht, hex]
  · intro ht hex hdl
    rw [get_downloads, happ]
    simp [get_downloads_go, classify_source, ht, hex, hdl]
  · intro t ht hex hdl hagent
    rw [get_downloads, happ]
    simp [get_downloads_go, classify_source, ht, hex, hdl, hagent]
  · intro ht hex hdl hagent
    rw [get_downloads, happ]
    simp [get_downloads_go, classify_source, ht, hex, hdl, hagent]

/-- Concrete instantiation of `get_downloads_classification`: a config with
a git VCS client and an https agent, over one VCS source, one already
present source, and finally a local-only missing source, which aborts the
classification with `SourceMissing`. -/
theorem get_downloads_classification_witness :
    get_downloads
        ⟨[⟨"https", "/usr/bin/curl"⟩], [⟨"git"⟩]⟩
        (fun s => s.url == "present")
        [⟨none, some "git", "https://h/r.git", none, none⟩,
         ⟨none, none, "present", none, none⟩,
         ⟨none, none, "local.txt", none, none⟩] =
      .error (.SourceMissing ⟨none, none, "local.txt", none, none⟩) := by
  have h2 :
      get_downloads
          ⟨[⟨"https", "/usr/bin/curl"⟩], [⟨"git"⟩]⟩
          (fun s => s.url == "present")
          ([⟨none, some "git", "https://h/r.git", none, none⟩,
            ⟨none, none, "present", none, none⟩] ++
            [⟨none, none, "local.txt", none, none⟩]) =
        .error (.SourceMissing ⟨none, none, "local.txt", none, none⟩) := by
    refine (get_downloads_classification
        ⟨[⟨"https", "/usr/bin/curl"⟩], [⟨"git"⟩]⟩
        (fun s => s.url == "present")
        [⟨none, some "git", "https://h/r.git", none, none⟩,
         ⟨none, none, "present", none, none⟩]
        ⟨none, none, "local.txt", none, none⟩
        ⟨[], [(⟨"git"⟩, ⟨none, some "git", "https://h/r.git", none, none⟩)],
          [⟨none, none, "present", none, none⟩]⟩
        (by rfl)).2.2.1 (by rfl) (by rfl) (by rfl)
  simpa using h2

/-! ## C4: fakeroot session (`Makepkg::fakeroot`, run.rs:507-547;
`impl Drop for FakeRoot`, makepkg.rs:16-20) -/

theorem fakeroot_calls_cached (o : FakedOracle) (fr : FakeRoot)
    (spawned : List Nat) :
    ∀ n, fakeroot_calls o n ⟨some fr, spawned⟩ =
      (List.replicate n (.ok fr.key), ⟨some fr, spawned⟩) := by
  intro n
  induction n with
  | zero => rfl
  | succ n ih => simp [fakeroot_calls, fakeroot_call, ih, List.replicate]

/-- C4 (confirmed): with the library discoverable and a well-formed daemon
announcement, calling the session initializer `M ≥ 1` times on one
`Makepkg` value returns the same key every time and spawns `faked` exactly
once (run.rs:507-547); and dropping the owning `FakeRoot` always kills the
daemon child (makepkg.rs:16-20). -/
theorem fakeroot_memoized (o : FakedOracle) (M : Nat) (key rest : String)
    (hM : 1 ≤ M) (hlib : o.libFound = true)
    (hkey : strSplitOnce (o.announce 0) ":" = some (key, rest)) :
    (∀ r ∈ (fakeroot_calls o M ⟨none, []⟩).1, r = .ok key) ∧
    (fakeroot_calls o M ⟨none, []⟩).2.spawned = [o.pid 0] ∧
    (∀ fr : FakeRoot, fr.dropEffect = .kill fr.child) := by
  obtain ⟨n, rfl⟩ : ∃ n, M = n + 1 := ⟨M - 1, by omega⟩
  have hfirst : fakeroot_call o ⟨none, []⟩ =
      (.ok key, ⟨some ⟨o.pid 0, key⟩, [o.pid 0]⟩) := by
    simp [fakeroot_call, hlib, hkey]
  have hrun : fakeroot_calls o (n + 1) ⟨none, []⟩ =
      (.ok key :: List.replicate n (.ok key),
        ⟨some ⟨o.pid 0, key⟩, [o.pid 0]⟩) := by
    simp [fakeroot_calls, hfirst, fakeroot_calls_cached]
  refine ⟨?_, ?_, fun fr => rfl⟩
  · intro r hr
    rw [hrun] at hr
    simp only [List.mem_cons, List.eq_of_mem_replicate] at hr
    rcases hr with h | h
    · exact h
    · exact List.eq_of_mem_replicate h
  · rw [hrun]

theorem fakeroot_memoized_witness :
    (∀ r ∈ (fakeroot_calls ⟨true, fun _ => "abc:xyz", fun _ => 77⟩ 3
        ⟨none, []⟩).1, r = .ok "abc") ∧
    (fakeroot_calls ⟨true, fun _ => "abc:xyz", fun _ => 77⟩ 3
        ⟨none, []⟩).2.spawned = [77] := by
  have h := fakeroot_memoized ⟨true, fun _ => "abc:xyz", fun _ => 77⟩ 3
    "abc" "xyz" (by omega) rfl (by rfl)
  exact ⟨h.1, h.2.1⟩

/-! ## Download events (callback.rs:38-52) -/

/-- C2 (confirmed): the `.part` file is renamed to the final name only when
the transfer finished with an HTTP status in 200..=299; any status outside
that range yields `DownloadError::Status` carrying the numeric code with no
rename performed; and no branch ever deletes the partial file
(curl.rs:167-211). -/
theorem handle_message_rename_semantics (resOk : Bool) (response : Nat)
    (failedEvOk completedEvOk renameOk : Bool) (h : MsgHandle) :
    (∀ a b, FsOp.rename a b ∈
        (handle_message resOk response failedEvOk completedEvOk renameOk h).fsOps →
      resOk = true ∧ 200 ≤ response ∧ response < 300) ∧
    (resOk = true → ¬(200 ≤ response ∧ response < 300) →
      (handle_message resOk response failedEvOk completedEvOk renameOk h).fsOps = [] ∧
      (failedEvOk = true →
        (handle_message resOk response failedEvOk completedEvOk renameOk h).err =
          some (.dl (.Status h.source response)) ∧
        (handle_message resOk response failedEvOk completedEvOk renameOk h).events =
          [.Failed h.session response])) ∧
    (∀ p, FsOp.remove p ∉
      (handle_message resOk response failedEvOk completedEvOk renameOk h).fsOps) ∧
    (resOk = true → 200 ≤ response → response < 300 → renameOk = true →
      FsOp.rename h.temp_path h.final_path ∈
        (handle_message resOk response failedEvOk completedEvOk renameOk h).fsOps) := by
  unfold handle_message
  refine ⟨?_, ?_, ?_, ?_⟩
  · intro a b hmem
    by_cases hres : resOk
    · by_cases hrange : 200 ≤ response ∧ response < 300
      · exact ⟨hres, hrange⟩
      · exfalso
        by_cases hfev : failedEvOk <;> simp [hres, hrange, hfev] at hmem
    · exfalso
      simp [hres] at hmem
  · intro hres hrange
    by_cases hfev : failedEvOk <;> simp [hres, hrange, hfev]
  · intro p hmem
    by_cases hres : resOk <;>
      by_cases hrange : 200 ≤ response ∧ response < 300 <;>
        by_cases hfev : failedEvOk <;>
          by_cases hrok : renameOk <;>
            by_cases hcev : completedEvOk <;>
              simp [hres, hrange, hfev, hrok, hcev] at hmem
  · intro hres h1 h2 hrok
    by_cases hcev : completedEvOk <;> simp [hres, h1, h2, hrok, hcev]

theorem handle_message_rename_semantics_witness :
    (handle_message true 404 true true true
        ⟨1, ⟨none, none, "https://h/a", none, none⟩, "a.part", "a"⟩).fsOps = [] ∧
    (handle_message true 404 true true true
        ⟨1, ⟨none, none, "https://h/a", none, none⟩, "a.part", "a"⟩).err =
      some (.dl (.Status ⟨none, none, "https://h/a", none, none⟩ 404)) ∧
    FsOp.rename "a.part" "a" ∈
      (handle_message true 200 true true true
        ⟨1, ⟨none, none, "https://h/a", none, none⟩, "a.part", "a"⟩).fsOps := by
  have h404 := handle_message_rename_semantics true 404 true true true
    ⟨1, ⟨none, none, "https://h/a", none, none⟩, "a.part", "a"⟩
  have h200 := handle_message_rename_semantics true 200 true true true
    ⟨1, ⟨none, none, "https://h/a", none, none⟩, "a.part", "a"⟩
  refine ⟨(h404.2.1 rfl (by omega)).1, ((h404.2.1 rfl (by omega)).2 rfl).1,
    h200.2.2.2 rfl (by omega) (by omega) rfl⟩

/-! ## C3: the bulk download loop (`download_curl_sources`, curl.rs:73-120)

The loop is modelled against an oracle: `payloadOk n` says whether
`make_payload` for session `n` succeeds (its `?` failure mode — e.g. the
`.part` file cannot be opened), and `rounds` lists, for each iteration of
the outer `while`, the `Progress` deliveries made during `curlm.perform()`
and the finished-transfer messages seen by `handle_messages`.  Messages for
sessions that are not active are ignored, as curl only reports on handles
that were added.  Callback delivery and the rename are treated as
infallible here; C2's `handle_message` covers their failure modes. -/

theorem accInits_append (tr : List DownloadEvent) :
    ∀ (s : List Nat) (new : List DownloadEvent),
      accInits s (tr ++ new) = accInits (accInits s tr) new := by
  induction tr with
  | nil => intro s new; rfl
  | cons e tr ih =>
    intro s new
    cases e <;> exact ih _ new

theorem accInits_mono (tr : List DownloadEvent) :
    ∀ (s : List Nat) (n : Nat), n ∈ s → n ∈ accInits s tr := by
  induction tr with
  | nil => intro s n h; exact h
  | cons e tr ih =>
    intro s n h
    cases e with
    | Init m => exact ih (m :: s) n (List.mem_cons_of_mem _ h)
    | DownloadStart t => exact ih s n h
    | Progress m => exact ih s n h
    | Completed m => exact ih s n h
    | Failed m c => exact ih s n h
    | DownloadEnd => exact ih s n h

theorem initSeen_append (tr : List DownloadEvent) :
    ∀ (s : List Nat) (new : List DownloadEvent),
      initSeen s (tr ++ new) = (initSeen s tr && initSeen (accInits s tr) new) := by
  induction tr with
  | nil => intro s new; simp [initSeen, accInits]
  | cons e tr ih =>
    intro s new
    cases e with
    | Init n => simpa [initSeen, accInits] using ih (n :: s) new
    | Progress n => simp [initSeen, accInits, ih s new, Bool.and_assoc]
    | Completed n => simp [initSeen, accInits, ih s new, Bool.and_assoc]
    | Failed n c => simp [initSeen, accInits, ih s new, Bool.and_assoc]
    | DownloadStart t => simpa [initSeen, accInits] using ih s new
    | DownloadEnd => simpa [initSeen, accInits] using ih s new

theorem head?_append_of_head? {α : Type} (l l2 : List α) (x : α)
    (h : l.head? = some x) : (l ++ l2).head? = some x := by
  cases l with
  | nil => simp at h
  | cons a t => simpa using h

theorem CurlInv.append_init {total : Nat} {active : List Nat}
    {trace : List DownloadEvent} (n : Nat) (inv : CurlInv total active trace) :
    CurlInv total (active ++ [n]) (trace ++ [.Init n]) := by
  obtain ⟨h1, h2, h3, h4, h5⟩ := inv
  refine ⟨?_, ?_, ?_, ?_, ?_⟩
  · rw [initSeen_append]
    simp [h1, initSeen]
  · intro m hm
    rw [accInits_append]
    show m ∈ n :: accInits [] trace
    rcases List.mem_append.mp hm with h | h
    · exact List.mem_cons_of_mem _ (h2 m h)
    · simp only [List.mem_singleton] at h
      subst h
      exact List.mem_cons_self _ _
  · intro hmem
    rcases List.mem_append.mp hmem with h | h
    · exact h3 h
    · simp at h
  · exact head?_append_of_head? _ _ _ h4
  · simp only [countStarts, List.countP_append] at *
    simpa using h5

theorem CurlInv.append_sess {total : Nat} {active : List Nat}
    {trace : List DownloadEvent} (active' : List Nat) (e : DownloadEvent)
    (n : Nat) (inv : CurlInv total active trace)
    (hsub : ∀ m ∈ active', m ∈ active) (hn : n ∈ active)
    (he : e = .Progress n ∨ e = .Completed n ∨ ∃ c, e = .Failed n c) :
    CurlInv total active' (trace ++ [e]) := by
  obtain ⟨h1, h2, h3, h4, h5⟩ := inv
  have hacc : n ∈ accInits [] trace := h2 n hn
  have haccsame : accInits [] (trace ++ [e]) = accInits [] trace := by
    rw [accInits_append]
    rcases he with h | h | ⟨c, h⟩ <;> subst h <;> rfl
  refine ⟨?_, ?_, ?_, ?_, ?_⟩
  · rw [initSeen_append]
    have : initSeen (accInits [] trace) [e] = true := by
      rcases he with h | h | ⟨c, h⟩ <;> subst h <;> simp [initSeen, hacc]
    simp [h1, this]
  · intro m hm
    rw [haccsame]
    exact h2 m (hsub m hm)
  · intro hmem
    rcases List.mem_append.mp hmem with h | h
    · exact h3 h
    · rcases he with he | he | ⟨c, he⟩ <;> subst he <;> simp at h
  · exact head?_append_of_head? _ _ _ h4
  · simp only [countStarts, List.countP_append] at *
    rcases he with he | he | ⟨c, he⟩ <;> subst he <;> simpa using h5

theorem fill_pool_inv (payloadOk : Nat → Bool) (total : Nat) :
    ∀ (queue active : List Nat) (trace : List DownloadEvent),
      CurlInv total active trace →
      CurlInv total (fill_pool payloadOk queue active trace).active
        (fill_pool payloadOk queue active trace).trace := by
  intro queue
  induction queue with
  | nil => intro active trace inv; exact inv
  | cons s rest ih =>
    intro active trace inv
    by_cases hlen : active.length < 8
    · by_cases hp : payloadOk s
      · have hunf : fill_pool payloadOk (s :: rest) active trace =
            fill_pool payloadOk rest (active ++ [s]) (trace ++ [.Init s]) := by
          simp [fill_pool, hlen, hp]
        rw [hunf]
        exact ih _ _ (inv.append_init s)
      · have hunf : fill_pool payloadOk (s :: rest) active trace =
            ⟨s :: rest, active, trace, true⟩ := by
          simp [fill_pool, hlen, hp]
        rw [hunf]
        exact inv
    · have hunf : fill_pool payloadOk (s :: rest) active trace =
          ⟨s :: rest, active, trace, false⟩ := by
        simp [fill_pool, hlen]
      rw [hunf]
      exact inv

theorem handle_round_inv (total : Nat) :
    ∀ (msgs : List RoundMsg) (active : List Nat) (trace : List DownloadEvent)
      (err : Option CurlErr),
      CurlInv total active trace →
      CurlInv total (handle_round msgs active trace err).1
        (handle_round msgs active trace err).2.1 := by
  intro msgs
  induction msgs with
  | nil => intro active trace err inv; exact inv
  | cons m rest ih =>
    intro active trace err inv
    cases m with
    | progress n =>
      by_cases hmem : n ∈ active
      · have hunf : handle_round (.progress n :: rest) active trace err =
            handle_round rest active (trace ++ [.Progress n]) err := by
          simp [handle_round, hmem]
        rw [hunf]
        exact ih _ _ _ (inv.append_sess active _ n (fun m hm => hm) hmem (Or.inl rfl))
      · have hunf : handle_round (.progress n :: rest) active trace err =
            handle_round rest active trace err := by
          simp [handle_round, hmem]
        rw [hunf]
        exact ih _ _ _ inv
    | done n resOk response =>
      by_cases hmem : n ∈ active
      · have hsub : ∀ m ∈ active.erase n, m ∈ active :=
          fun m hm => List.mem_of_mem_erase hm
        by_cases hres : resOk
        · by_cases hrange : 200 ≤ response ∧ response < 300
          · have hunf : handle_round (.done n resOk response :: rest) active trace err =
                handle_round rest (active.erase n) (trace ++ [.Completed n]) err := by
              simp [handle_round, hmem, hres, hrange]
            rw [hunf]
            exact ih _ _ _
              (inv.append_sess (active.erase n) _ n hsub hmem (Or.inr (Or.inl rfl)))
          · have hunf : handle_round (.done n resOk response :: rest) active trace err =
                handle_round rest (active.erase n) (trace ++ [.Failed n response])
                  (err <|> some (.status n response)) := by
              simp [handle_round, hmem, hres, hrange]
            rw [hunf]
            exact ih _ _ _
              (inv.append_sess (active.erase n) _ n hsub hmem (Or.inr (Or.inr ⟨_, rfl⟩)))
        · have hunf : handle_round (.done n resOk response :: rest) active trace err =
              handle_round rest (active.erase n) trace (err <|> some (.curl n)) := by
            simp [handle_round, hmem, hres]
          rw [hunf]
          exact ih _ _ _ ⟨inv.1, fun m hm => inv.2.1 m (hsub m hm), inv.2.2.1,
            inv.2.2.2.1, inv.2.2.2.2⟩
      · have hunf : handle_round (.done n resOk response :: rest) active trace err =
            handle_round rest active trace err := by
          simp [handle_round, hmem]
        rw [hunf]
        exact ih _ _ _ inv

theorem runspec_of_inv_end {total : Nat} {active : List Nat}
    {trace : List DownloadEvent} (inv : CurlInv total active trace) :
    initSeen [] (trace ++ [.DownloadEnd]) = true ∧
    (trace ++ [DownloadEvent.DownloadEnd]).head? =
      some (DownloadEvent.DownloadStart total) ∧
    countStarts (trace ++ [.DownloadEnd]) = 1 ∧
    ∃ pre, trace ++ [DownloadEvent.DownloadEnd] = pre ++ [.DownloadEnd] ∧
      DownloadEvent.DownloadEnd ∉ pre := by
  obtain ⟨h1, _, h3, h4, h5⟩ := inv
  refine ⟨?_, ?_, ?_, trace, rfl, h3⟩
  · rw [initSeen_append]
    simp [h1, initSeen]
  · exact head?_append_of_head? _ _ _ h4
  · simp only [countStarts, List.countP_append] at *
    simpa using h5

theorem dl_loop_spec (payloadOk : Nat → Bool) (total : Nat) :
    ∀ (rounds : List (List RoundMsg)) (queue active : List Nat)
      (trace : List DownloadEvent), CurlInv total active trace →
      initSeen [] (dl_loop payloadOk rounds queue active trace).trace = true ∧
      (dl_loop payloadOk rounds queue active trace).trace.head? =
        some (.DownloadStart total) ∧
      countStarts (dl_loop payloadOk rounds queue active trace).trace = 1 ∧
      (((dl_loop payloadOk rounds queue active trace).outcome = .ok ∨
        ∃ e, (dl_loop payloadOk rounds queue active trace).outcome = .errEnded e) →
        ∃ pre, (dl_loop payloadOk rounds queue active trace).trace =
            pre ++ [.DownloadEnd] ∧ DownloadEvent.DownloadEnd ∉ pre) ∧
      (((dl_loop payloadOk rounds queue active trace).outcome = .errNoEnd ∨
        (dl_loop payloadOk rounds queue active trace).outcome = .outOfRounds) →
        DownloadEvent.DownloadEnd ∉
          (dl_loop payloadOk rounds queue active trace).trace) := by
  intro rounds
  induction rounds with
  | nil =>
    intro queue active trace inv
    by_cases hq : queue = [] ∧ active = []
    · have hunf : dl_loop payloadOk [] queue active trace =
          ⟨trace ++ [.DownloadEnd], .ok⟩ := by
        simp [dl_loop, hq.1, hq.2]
      rw [hunf]
      obtain ⟨a1, a2, a3, a4⟩ := runspec_of_inv_end inv
      refine ⟨a1, a2, a3, fun _ => a4, ?_⟩
      intro h
      rcases h with h | h <;> simp at h
    · have hunf : dl_loop payloadOk [] queue active trace =
          ⟨trace, .outOfRounds⟩ := by
        simp only [dl_loop, if_neg hq]
      rw [hunf]
      refine ⟨inv.1, inv.2.2.2.1, inv.2.2.2.2, ?_, fun _ => inv.2.2.1⟩
      intro h
      rcases h with h | ⟨e, h⟩ <;> simp at h
  | cons r rest ih =>
    intro queue active trace inv
    by_cases hq : queue = [] ∧ active = []
    · have hunf : dl_loop payloadOk (r :: rest) queue active trace =
          ⟨trace ++ [.DownloadEnd], .ok⟩ := by
        simp [dl_loop, hq.1, hq.2]
      rw [hunf]
      obtain ⟨a1, a2, a3, a4⟩ := runspec_of_inv_end inv
      refine ⟨a1, a2, a3, fun _ => a4, ?_⟩
      intro h
      rcases h with h | h <;> simp at h
    · have hfr := fill_pool_inv payloadOk total queue active trace inv
      by_cases hfail : (fill_pool payloadOk queue active trace).failed
      · have hunf : dl_loop payloadOk (r :: rest) queue active trace =
            ⟨(fill_pool payloadOk queue active trace).trace, .errNoEnd⟩ := by
          simp only [dl_loop, if_neg hq, if_pos hfail]
        rw [hunf]
        refine ⟨hfr.1, hfr.2.2.2.1, hfr.2.2.2.2, ?_, fun _ => hfr.2.2.1⟩
        intro h
        rcases h with h | ⟨e, h⟩ <;> simp at h
      · rcases hhr : handle_round r (fill_pool payloadOk queue active trace).active
            (fill_pool payloadOk queue active trace).trace none with ⟨a, tr, errF⟩
        have hrinv := handle_round_inv total r
          (fill_pool payloadOk queue active trace).active
          (fill_pool payloadOk queue active trace).trace none hfr
        rw [hhr] at hrinv
        cases errF with
        | some e =>
          have hunf : dl_loop payloadOk (r :: rest) queue active trace =
              ⟨tr ++ [.DownloadEnd], .errEnded e⟩ := by
            simp only [dl_loop, if_neg hq, if_neg hfail, hhr]
          rw [hunf]
          obtain ⟨a1, a2, a3, a4⟩ := runspec_of_inv_end hrinv
          refine ⟨a1, a2, a3, fun _ => a4, ?_⟩
          intro h
          rcases h with h | h <;> simp at h
        | none =>
          have hunf : dl_loop payloadOk (r :: rest) queue active trace =
              dl_loop payloadOk rest (fill_pool payloadOk queue active trace).queue
                a tr := by
            simp only [dl_loop, if_neg hq, if_neg hfail, hhr]
          rw [hunf]
          exact ih _ _ _ hrinv

/-- C3's counterexample: a batch of one source whose `make_payload` fails
(e.g. its `.part` file cannot be opened, curl.rs:140-142).  The `?` at
curl.rs:95 returns from `download_curl_sources` after `DownloadStart` with
no `DownloadEnd` ever emitted, refuting "exactly one DownloadEnd ...
(including on the early-return error path)". -/
theorem download_end_missing_counterexample :
    download_curl_sources (fun _ => false) [[]] 1 =
      ⟨[.DownloadStart 1], .errNoEnd⟩ ∧
    (download_curl_sources (fun _ => false) [[]] 1).trace.count
      DownloadEvent.DownloadEnd = 0 := by
  exact ⟨rfl, rfl⟩

/-- C3 (amended): for a non-empty batch the trace opens with the single
`DownloadStart(total)`, every per-session `Progress`/`Completed`/`Failed`
is preceded by that session's `Init`, and `DownloadEnd` is emitted exactly
once, as the final event — on the normal path and on the handled
transfer-failure path; but on a `?`-propagated failure (payload creation)
the function returns with no `DownloadEnd` at all. -/
theorem download_curl_event_order (payloadOk : Nat → Bool)
    (rounds : List (List RoundMsg)) (total : Nat) (htotal : 0 < total) :
    initSeen [] (download_curl_sources payloadOk rounds total).trace = true ∧
    (download_curl_sources payloadOk rounds total).trace.head? =
      some (.DownloadStart total) ∧
    countStarts (download_curl_sources payloadOk rounds total).trace = 1 ∧
    (((download_curl_sources payloadOk rounds total).outcome = .ok ∨
      ∃ e, (download_curl_sources payloadOk rounds total).outcome = .errEnded e) →
      ∃ pre, (download_curl_sources payloadOk rounds total).trace =
          pre ++ [.DownloadEnd] ∧ DownloadEvent.DownloadEnd ∉ pre) ∧
    (((download_curl_sources payloadOk rounds total).outcome = .errNoEnd ∨
      (download_curl_sources payloadOk rounds total).outcome = .outOfRounds) →
      DownloadEvent.DownloadEnd ∉
        (download_curl_sources payloadOk rounds total).trace) := by
  have hunf : download_curl_sources payloadOk rounds total =
      dl_loop payloadOk rounds (List.range' 1 total) [] [.DownloadStart total] := by
    simp [download_curl_sources, Nat.pos_iff_ne_zero.mp htotal]
  rw [hunf]
  apply dl_loop_spec
  refine ⟨rfl, ?_, ?_, rfl, rfl⟩
  · intro n hn
    simp at hn
  · intro h
    simp at h

theorem download_curl_event_order_witness :
    (download_curl_sources (fun _ => true) [[.done 1 true 200]] 1).trace =
      [.DownloadStart 1, .Init 1, .Completed 1, .DownloadEnd] ∧
    initSeen []
      (download_curl_sources (fun _ => true) [[.done 1 true 200]] 1).trace = true ∧
    ∃ pre, (download_curl_sources (fun _ => true) [[.done 1 true 200]] 1).trace =
        pre ++ [.DownloadEnd] ∧ DownloadEvent.DownloadEnd ∉ pre := by
  have h := download_curl_event_order (fun _ => true) [[.done 1 true 200]] 1
    (by omega)
  exact ⟨rfl, h.1, h.2.2.2.1 (Or.inl rfl)⟩

/-! ## C6: the output multiplexing loop of `process_inner` (run.rs:240-349)

The loop's output-stream handling is modelled as a fold over a schedule of
readiness events.  The input-feeding branch (`token_in`, run.rs:248-270) is
omitted — it writes no output.  `token_out` always belongs to the first
process's `CommandData` (an `outsock` is only registered when a caller
buffer is requested, run.rs:161-169, which the `process_pipe` entry point
never does). -/

theorem countSynthNl_append (a b : List WriteRec) :
    countSynthNl (a ++ b) = countSynthNl a + countSynthNl b :=
  List.countP_append _ _ _

theorem countSynthNl_forwardChunk (how : CommandOutput) (id : Nat)
    (bytes : List Nat) : countSynthNl (forwardChunk how id bytes) = 0 := by
  cases how <;> rfl

theorem forwardChunk_no_synth (how : CommandOutput) (id : Nat)
    (bytes : List Nat) :
    ∀ a ∈ forwardChunk how id bytes,
      (match a with | WriteRec.synthNl _ => true | _ => false) = false := by
  intro a ha
  cases how with
  | Inherit => simp [forwardChunk] at ha; subst ha; rfl
  | Null => simp [forwardChunk] at ha
  | Callback => simp [forwardChunk] at ha; subst ha; rfl
  | File => simp [forwardChunk] at ha; subst ha; rfl

theorem countSynthNl_forwardSynthNl_le (how : CommandOutput) (id : Nat) :
    countSynthNl (forwardSynthNl how id) ≤ 1 := by
  cases how <;> simp [forwardSynthNl, countSynthNl]

theorem process_ev_synth_bound (cfg : RunCfg) (st : LoopSt) (ev : StreamEv) :
    countSynthNl (process_ev cfg st ev).writes ≤
      countSynthNl st.writes +
        (match ev with | .closed .token_err => 1 | _ => 0) := by
  cases ev with
  | data t bytes =>
    cases hl : bytes.getLast? with
    | none => simp [process_ev, hl]
    | some lastByte =>
      simp only [process_ev, hl]
      by_cases hb : t ≠ Tok.token_out ∨ ¬cfg.ignore_stdout = true
      · rw [if_pos hb]
        by_cases h1 : t = Tok.token_out ∧ cfg.hasOutput = true <;>
          by_cases h2 : cfg.hasLogfile = true <;>
            simp [h1, h2, countSynthNl_append, countSynthNl_forwardChunk,
              countSynthNl] <;>
            exact forwardChunk_no_synth _ _ _
      · rw [if_neg hb]
        by_cases h1 : t = Tok.token_out ∧ cfg.hasOutput = true <;>
          by_cases h2 : cfg.hasLogfile = true <;>
            simp [h1, h2, countSynthNl_append, countSynthNl]
  | closed t =>
    simp only [process_ev]
    by_cases hc : t = Tok.token_err ∧ ¬st.ends_with_nl = true
    · rw [if_pos hc]
      rcases hc with ⟨rfl, _⟩
      have := countSynthNl_forwardSynthNl_le cfg.how_output1 1
      simp only [countSynthNl_append]
      omega
    · rw [if_neg hc]
      cases t <;> simp

theorem process_run_synth_bound (cfg : RunCfg) :
    ∀ (evs : List StreamEv) (st : LoopSt),
      countSynthNl (evs.foldl (process_ev cfg) st).writes ≤
        countSynthNl st.writes +
          evs.countP (fun ev => match ev with
            | .closed .token_err => true | _ => false) := by
  intro evs
  induction evs with
  | nil => intro st; simp
  | cons ev rest ih =>
    intro st
    have hstep := process_ev_synth_bound cfg st ev
    have htail := ih (process_ev cfg st ev)
    simp only [List.foldl_cons, List.countP_cons] at *
    cases ev with
    | data t bytes =>
      simp only at hstep ⊢
      omega
    | closed t =>
      cases t <;> simp at hstep ⊢ <;> omega

/-- C6's counterexample: in a pipeline, the downstream's stderr
(`token_err2`, policy `Callback`) closes right after a chunk with no
trailing newline; the loop emits no synthetic newline for it, because the
close branch fires only for `token_err` (run.rs:332). -/
theorem synth_nl_counterexample :
    process_run ⟨.Callback, .Callback, false, false, true⟩
        [.data .token_err2 [97], .closed .token_err2] =
      ⟨false, [.chunk (.cb 2) [97]]⟩ ∧
    countSynthNl (process_run ⟨.Callback, .Callback, false, false, true⟩
        [.data .token_err2 [97], .closed .token_err2]).writes = 0 :=
  ⟨rfl, rfl⟩

/-- C6 (amended): the synthetic trailing newline is emitted only when the
FIRST process's stderr token closes, and its guard is the shared
`ends_with_nl` flag — which tracks the last forwarded chunk of ANY stream,
not of the closing one.  Data events and closes of `token_out` or the
downstream's stderr never emit one; a `token_err` close with the flag false
appends exactly the policy's synthetic newline (none for `Null`); with the
flag true nothing is emitted; and a schedule closing `token_err` at most
once yields at most one synthetic newline in the whole run. -/
theorem synth_nl_emission (cfg : RunCfg) :
    (∀ st t bytes,
      countSynthNl (process_ev cfg st (.data t bytes)).writes =
        countSynthNl st.writes) ∧
    (∀ st, process_ev cfg st (.closed .token_out) = st) ∧
    (∀ st, process_ev cfg st (.closed .token_err2) = st) ∧
    (∀ st, st.ends_with_nl = false →
      (process_ev cfg st (.closed .token_err)).writes =
        st.writes ++ forwardSynthNl cfg.how_output1 1) ∧
    (∀ st, st.ends_with_nl = true →
      process_ev cfg st (.closed .token_err) = st) ∧
    (∀ evs, evs.countP (fun ev => match ev with
        | .closed .token_err => true | _ => false) ≤ 1 →
      countSynthNl (process_run cfg evs).writes ≤ 1) := by
  refine ⟨?_, ?_, ?_, ?_, ?_, ?_⟩
  · intro st t bytes
    cases hl : bytes.getLast? with
    | none => simp [process_ev, hl]
    | some lastByte =>
      simp only [process_ev, hl]
      by_cases hb : t ≠ Tok.token_out ∨ ¬cfg.ignore_stdout = true
      · rw [if_pos hb]
        by_cases h1 : t = Tok.token_out ∧ cfg.hasOutput = true <;>
          by_cases h2 : cfg.hasLogfile = true <;>
            simp [h1, h2, countSynthNl_append, countSynthNl_forwardChunk,
              countSynthNl] <;>
            exact forwardChunk_no_synth _ _ _
      · rw [if_neg hb]
        by_cases h1 : t = Tok.token_out ∧ cfg.hasOutput = true <;>
          by_cases h2 : cfg.hasLogfile = true <;>
            simp [h1, h2, countSynthNl_append, countSynthNl]
  · intro st
    simp only [process_ev]
    rw [if_neg (by simp)]
  · intro st
    simp only [process_ev]
    rw [if_neg (by simp)]
  · intro st hnl
    simp only [process_ev]
    rw [if_pos (by simp [hnl])]
  · intro st hnl
    simp only [process_ev]
    rw [if_neg (by simp [hnl])]
  · intro evs hcount
    have := process_run_synth_bound cfg evs ⟨true, []⟩
    simp only [countSynthNl, List.countP_nil] at this
    unfold process_run countSynthNl at *
    omega

theorem synth_nl_emission_witness :
    (process_ev ⟨.Callback, .Null, false, false, false⟩ ⟨false, []⟩
        (.closed .token_err)).writes = [.synthNl (.cb 1)] ∧
    process_ev ⟨.Callback, .Null, false, false, false⟩ ⟨true, []⟩
        (.closed .token_err) = ⟨true, []⟩ ∧
    countSynthNl (process_run ⟨.Callback, .Null, false, false, false⟩
        [.data .token_err [97], .closed .token_err]).writes ≤ 1 := by
  have h := synth_nl_emission ⟨.Callback, .Null, false, false, false⟩
  refine ⟨?_, h.2.2.2.2.1 ⟨true, []⟩ rfl, h.2.2.2.2.2 _ (by decide)⟩
  have h4 := h.2.2.2.1 ⟨false, []⟩ rfl
  simpa using h4

/-! ## C7-C9: the git source adapter (sources/git.rs)

`download_git` and `extract_git` are embedded as functions of an oracle
world (does the mirror / working copy exist, does each git invocation
succeed, what does each query print), returning the list of git commands
run, in order, and the result. -/

/-- C7 (confirmed): for a git source with a `Tag` fragment (and the
fetch/clone succeeding), `extract_git` runs
`git tag -l --format=%(tag) <tag>`; a non-empty resolution different from
the requested tag fails with `RefsDiffer` naming both strings, an empty
resolution fails with `RefNotFound`, and in both failure cases no checkout
command is run (sources/git.rs:122-145). -/
theorem extract_git_tag_verify (w : GitExtractWorld) (srcdir srcdest : String)
    (source : Source) (t : String)
    (hfrag : source.fragment = some (.tag t)) (h1 : w.cmd1Ok = true) :
    (GitCmd.mk ["tag", "-l", "--format=%(tag)", t] []
        (some (srcdir ++ "/" ++ source.file_name)) ∈
      (extract_git w srcdir srcdest source).1) ∧
    (∀ r, w.tagOutput = some r → r ≠ "" → r ≠ t →
      (extract_git w srcdir srcdest source).2 =
        .error (.RefsDiffer source t r) ∧
      ∀ c ∈ (extract_git w srcdir srcdest source).1,
        c.args.head? ≠ some "checkout") ∧
    (w.tagOutput = some "" →
      (extract_git w srcdir srcdest source).2 =
        .error (.RefNotFound source (.tag t)) ∧
      ∀ c ∈ (extract_git w srcdir srcdest source).1,
        c.args.head? ≠ some "checkout") := by
  have hnochk : ∀ c ∈ [(if w.srcpathExists then
        GitCmd.mk ["fetch"] [] (some (srcdir ++ "/" ++ source.file_name))
      else ⟨["clone", "--origin=origin", "-s",
          srcdest ++ "/" ++ source.file_name, source.file_name],
        [("GIT_TERMINAL_PROMPT", "0")], some srcdir⟩),
      GitCmd.mk ["tag", "-l", "--format=%(tag)", t] []
        (some (srcdir ++ "/" ++ source.file_name))],
      c.args.head? ≠ some "checkout" := by
    intro c hc
    rcases List.mem_cons.mp hc with rfl | hc
    · by_cases hse : w.srcpathExists <;> simp [hse]
    · rcases List.mem_cons.mp hc with rfl | hc
      · simp
      · simp at hc
  refine ⟨?_, ?_, ?_⟩
  · simp only [extract_git, hfrag, h1, gitRefOf, Bool.not_true]
    cases hto : w.tagOutput with
    | none => simp
    | some tagname =>
      by_cases he : tagname = ""
      · simp [he]
      · by_cases hne : tagname ≠ t
        · simp [he, hne]
        · simp only [ne_eq, not_not] at hne
          subst hne
          by_cases hco : (¬tagname = "origin/head") ∨ w.srcpathExists = true <;>
            by_cases hok : w.checkoutOk <;>
              simp [git_checkout_step, he, hco, hok]
  · intro r hto hre hrt
    simp only [extract_git, hfrag, h1, gitRefOf, Bool.not_true, hto]
    simp only [if_neg hre, if_pos (by exact hrt : r ≠ t)]
    exact ⟨rfl, hnochk⟩
  · intro hto
    simp only [extract_git, hfrag, h1, gitRefOf, Bool.not_true, hto]
    exact ⟨rfl, hnochk⟩

theorem extract_git_tag_verify_witness :
    (extract_git ⟨false, true, some "v1.0-evil", true⟩ "s" "d"
        ⟨none, some "git", "https://h/r.git", some (.tag "v1.0"), none⟩).2 =
      .error (.RefsDiffer
        ⟨none, some "git", "https://h/r.git", some (.tag "v1.0"), none⟩
        "v1.0" "v1.0-evil") ∧
    ∀ c ∈ (extract_git ⟨false, true, some "v1.0-evil", true⟩ "s" "d"
        ⟨none, some "git", "https://h/r.git", some (.tag "v1.0"), none⟩).1,
      c.args.head? ≠ some "checkout" := by
  have h := extract_git_tag_verify ⟨false, true, some "v1.0-evil", true⟩ "s" "d"
    ⟨none, some "git", "https://h/r.git", some (.tag "v1.0"), none⟩ "v1.0"
    rfl rfl
  exact h.2.1 "v1.0-evil" rfl (by decide) (by decide)

/-- C8 (confirmed): with the local mirror present and hold-version off,
`download_git` queries `remote.origin.url`; if it differs from the declared
URL (comparison after trimming `".git"` suffixes on both sides) the result
is a `RemotesDiffer` error and no fetch is run; if it matches, the update
fetch is run.  The final conjunct shows the comparison indeed ignores a
trailing `".git"` (sources/git.rs:43-70). -/
theorem download_git_remote_check (w : GitDownloadWorld) (dlPath : String)
    (source : Source) (hmirror : w.mirrorExists = true) :
    (∀ u, w.remoteUrlResult = some u →
      (trimEndMatches u ".git" ≠ trimEndMatches source.url ".git" →
        (download_git w dlPath false source).2 =
          .error (.RemotesDiffer source u) ∧
        ∀ c ∈ (download_git w dlPath false source).1,
          c.args.head? ≠ some "fetch") ∧
      (trimEndMatches u ".git" = trimEndMatches source.url ".git" →
        GitCmd.mk ["fetch", "--all", "-p"] [("GIT_TERMINAL_PROMPT", "0")]
            (some dlPath) ∈
          (download_git w dlPath false source).1)) ∧
    (∀ s : String, trimEndMatches (s ++ ".git") ".git" =
      trimEndMatches s ".git") := by
  constructor
  · intro u hu
    constructor
    · intro hne
      have hunf : download_git w dlPath false source =
          ([⟨["config", "--get", "remote.origin.url"], [], some dlPath⟩],
            .error (.RemotesDiffer source u)) := by
        simp [download_git, hmirror, hu, hne]
      rw [hunf]
      refine ⟨rfl, ?_⟩
      intro c hc
      simp only [List.mem_singleton] at hc
      subst hc
      simp
    · intro heq
      by_cases hfok : w.fetchOk
      · have hunf : download_git w dlPath false source =
            ([⟨["config", "--get", "remote.origin.url"], [], some dlPath⟩,
              ⟨["fetch", "--all", "-p"], [("GIT_TERMINAL_PROMPT", "0")],
                some dlPath⟩], .ok ()) := by
          simp [download_git, hmirror, hu, heq, hfok]
        rw [hunf]
        simp
      · have hunf : download_git w dlPath false source =
            ([⟨["config", "--get", "remote.origin.url"], [], some dlPath⟩,
              ⟨["fetch", "--all", "-p"], [("GIT_TERMINAL_PROMPT", "0")],
                some dlPath⟩],
              .error (.Command source ["fetch", "--all", "-p"])) := by
          simp [download_git, hmirror, hu, heq, hfok]
        rw [hunf]
        simp
  · intro s
    unfold trimEndMatches
    have hdata : (s ++ ".git").data = s.data ++ ".git".data :=
      String.data_append s ".git"
    rw [hdata, List.reverse_append]
    rw [stripRepPre_unfold]
    rw [if_pos ⟨by decide, List.isPrefixOf_iff_prefix.mpr (List.prefix_append _ _)⟩]
    rw [List.drop_left]

theorem download_git_remote_check_witness :
    (download_git ⟨true, none, true, some "https://other/r", true⟩ "dl" false
        ⟨none, some "git", "https://h/r.git", none, none⟩).2 =
      .error (.RemotesDiffer ⟨none, some "git", "https://h/r.git", none, none⟩
        "https://other/r") ∧
    GitCmd.mk ["fetch", "--all", "-p"] [("GIT_TERMINAL_PROMPT", "0")]
        (some "dl") ∈
      (download_git ⟨true, none, true, some "https://h/r", true⟩ "dl" false
        ⟨none, some "git", "https://h/r.git", none, none⟩).1 := by
  have hdiff := download_git_remote_check
    ⟨true, none, true, some "https://other/r", true⟩ "dl"
    ⟨none, some "git", "https://h/r.git", none, none⟩ rfl
  have hsame := download_git_remote_check
    ⟨true, none, true, some "https://h/r", true⟩ "dl"
    ⟨none, some "git", "https://h/r.git", none, none⟩ rfl
  exact ⟨((hdiff.1 "https://other/r" rfl).1 (by decide)).1,
    (hsame.1 "https://h/r" rfl).2 (by decide)⟩

/-- C9's counterexample: with an existing working copy, `extract_git` runs
`git fetch` (sources/git.rs:88-93) with no environment entries — in
particular without `GIT_TERMINAL_PROMPT=0` — refuting "every git command
... is run with GIT_TERMINAL_PROMPT set to 0". -/
theorem git_terminal_prompt_counterexample :
    GitCmd.mk ["fetch"] [] (some "srcdir/r") ∈
      (extract_git ⟨true, true, none, true⟩ "srcdir" "srcdest"
        ⟨none, some "git", "https://h/r.git", none, none⟩).1 ∧
    ("GIT_TERMINAL_PROMPT", "0") ∉
      (GitCmd.mk ["fetch"] [] (some "srcdir/r")).env := by
  exact ⟨by decide, by decide⟩

theorem git_checkout_step_env (we : GitExtractWorld) (source : Source)
    (srcpath gitref : String) (updating : Bool) (cmds : List GitCmd)
    (c : GitCmd)
    (hcmds : ∀ d ∈ cmds,
      (("GIT_TERMINAL_PROMPT", "0") ∈ d.env ↔ d.args.head? = some "clone"))
    (hc : c ∈ (git_checkout_step we source srcpath gitref updating cmds).1) :
    (("GIT_TERMINAL_PROMPT", "0") ∈ c.env ↔ c.args.head? = some "clone") := by
  unfold git_checkout_step at hc
  by_cases hco : gitref ≠ "origin/head" ∨ updating = true
  · simp only [if_pos hco] at hc
    by_cases hok : we.checkoutOk <;>
      simp only [hok, if_pos, if_neg, Bool.false_eq_true] at hc <;>
      (rcases List.mem_append.mp hc with hc | hc
       · exact hcmds c hc
       · simp only [List.mem_singleton] at hc
         subst hc
         simp)
  · simp only [if_neg hco] at hc
    exact hcmds c hc

/-- C9 (amended): `GIT_TERMINAL_PROMPT=0` is set exactly on the clone
commands of both functions and on `download_git`'s update fetch
(`fetch --all -p`); the remote-URL query, `extract_git`'s plain `fetch`,
the tag listing, and the checkout run without it (sources/git.rs). -/
theorem git_terminal_prompt_coverage (wd : GitDownloadWorld)
    (we : GitExtractWorld) (dlPath srcdir srcdest : String)
    (hold_ver : Bool) (source : Source) :
    (∀ c ∈ (download_git wd dlPath hold_ver source).1,
      (("GIT_TERMINAL_PROMPT", "0") ∈ c.env ↔
        c.args.head? = some "clone" ∨ c.args.take 2 = ["fetch", "--all"])) ∧
    (∀ c ∈ (extract_git we srcdir srcdest source).1,
      (("GIT_TERMINAL_PROMPT", "0") ∈ c.env ↔
        c.args.head? = some "clone")) := by
  constructor
  · intro c hc
    by_cases hm : wd.mirrorExists
    · by_cases hv : hold_ver
      · simp [download_git, hm, hv] at hc
      · cases hru : wd.remoteUrlResult with
        | none =>
          simp [download_git, hm, hv, hru] at hc
          subst hc
          simp
        | some u =>
          by_cases hne : trimEndMatches u ".git" = trimEndMatches source.url ".git"
          · by_cases hfok : wd.fetchOk
            · simp [download_git, hm, hv, hru, hne, hfok] at hc
              rcases hc with rfl | rfl
              · simp
              · simp
            · simp [download_git, hm, hv, hru, hne, hfok] at hc
              rcases hc with rfl | rfl
              · simp
              · simp
          · simp [download_git, hm, hv, hru, hne] at hc
            subst hc
            simp
    · by_cases hcl : wd.cloneOk
      · simp [download_git, hm, hcl] at hc
        subst hc
        simp
      · simp [download_git, hm, hcl] at hc
        subst hc
        simp
  · intro c hc
    by_cases h1 : we.cmd1Ok
    · rcases hfrag : source.fragment with _ | frag
      · simp [extract_git, h1, hfrag, gitRefOf] at hc
        exact git_checkout_step_env we source _ "origin/HEAD"
          we.srcpathExists _ c (by
            intro d hd
            simp only [List.mem_singleton] at hd
            subst hd
            by_cases hse : we.srcpathExists <;> simp [hse]) hc
      · cases frag with
        | revision r =>
          simp [extract_git, h1, hfrag, gitRefOf] at hc
          subst hc
          by_cases hse : we.srcpathExists <;> simp [hse]
        | branch r =>
          simp [extract_git, h1, hfrag, gitRefOf] at hc
          exact git_checkout_step_env we source _ ("origin/" ++ r)
            we.srcpathExists _ c (by
            intro d hd
            simp only [List.mem_singleton] at hd
            subst hd
            by_cases hse : we.srcpathExists <;> simp [hse]) hc
        | commit r =>
          simp [extract_git, h1, hfrag, gitRefOf] at hc
          exact git_checkout_step_env we source _ r
            we.srcpathExists _ c (by
            intro d hd
            simp only [List.mem_singleton] at hd
            subst hd
            by_cases hse : we.srcpathExists <;> simp [hse]) hc
        | tag t =>
          cases hto : we.tagOutput with
          | none =>
            simp [extract_git, h1, hfrag, gitRefOf, hto] at hc
            rcases hc with rfl | rfl
            · by_cases hse : we.srcpathExists <;> simp [hse]
            · simp
          | some tagname =>
            by_cases he : tagname = ""
            · simp [extract_git, h1, hfrag, gitRefOf, hto, he] at hc
              rcases hc with rfl | rfl
              · by_cases hse : we.srcpathExists <;> simp [hse]
              · simp
            · by_cases hne : tagname = t
              · subst hne
                simp [extract_git, h1, hfrag, gitRefOf, hto, he] at hc
                exact git_checkout_step_env we source _ tagname
                  we.srcpathExists _ c (by
                  intro d hd
                  rcases List.mem_cons.mp hd with rfl | hd
                  · by_cases hse : we.srcpathExists <;> simp [hse]
                  · simp only [List.mem_singleton] at hd
                    subst hd
                    simp) hc
              · simp [extract_git, h1, hfrag, gitRefOf, hto, he, hne] at hc
                rcases hc with rfl | rfl
                · by_cases hse : we.srcpathExists <;> simp [hse]
                · simp
    · simp [extract_git, h1] at hc
      subst hc
      by_cases hse : we.srcpathExists <;> simp [hse]

theorem git_terminal_prompt_coverage_witness :
    (("GIT_TERMINAL_PROMPT", "0") ∈
      (GitCmd.mk ["fetch"] [] (some "srcdir/r")).env ↔
        (GitCmd.mk ["fetch"] [] (some "srcdir/r")).args.head? = some "clone") := by
  have h := git_terminal_prompt_coverage ⟨true, none, true, none, true⟩
    ⟨true, true, none, true⟩ "dl" "srcdir" "srcdest" false
    ⟨none, some "git", "https://h/r.git", none, none⟩
  exact h.2 (GitCmd.mk ["fetch"] [] (some "srcdir/r")) (by decide)

/-! ## C10: `Source::file_name` versus its description -/

theorem lastSegmentSpec_eq_takeWhile (l : List Char) :
    lastSegmentSpec l = (l.reverse.takeWhile (fun c => c ≠ '/')).reverse := by
  induction l using List.reverseRecOn with
  | nil => simp [lastSegmentSpec]
  | append_singleton l c ih =>
    have hfold : lastSegmentSpec (l ++ [c]) =
        if c = '/' then [] else lastSegmentSpec l ++ [c] := by
      simp [lastSegmentSpec, List.foldl_append]
    rw [hfold, List.reverse_append]
    by_cases hc : c = '/'
    · subst hc
      simp [List.takeWhile_cons]
    · simp [List.takeWhile_cons, hc, ih]

/-- C10 (confirmed): `Source::file_name` (pkgbuild.rs:352-363) returns the
filename override when one is set and otherwise the substring of the URL
after its last `'/'`, and exactly when `protocol()` is `"git"` any trailing
`".git"` suffix is additionally stripped from that name. -/
theorem file_name_matches_description (s : Source) :
    s.file_name = file_name_spec s := by
  unfold Source.file_name file_name_spec
  rw [lastSegmentSpec_eq_takeWhile]

/-! ## C1: two-process pipeline exit outcome -/

/-- C1's counterexample: upstream exits 2, downstream exits 3 (both
non-zero).  `process_inner` (run.rs:355-366) returns the downstream's
status 3, not the upstream's first failure 2 as the claim states. -/
theorem pipeline_both_fail_counterexample :
    ExitStatus.success ⟨some 2⟩ = false ∧
    ExitStatus.success ⟨some 3⟩ = false ∧
    process_inner_wait (some ⟨some 3⟩) ⟨some 2⟩ = ⟨some 3⟩ ∧
    process_inner_wait (some ⟨some 3⟩) ⟨some 2⟩ ≠ ⟨some 2⟩ := by
  decide

/-- C1 (amended): when the upstream fails and the downstream succeeds, the
upstream's failure is returned; but when the downstream fails (in
particular when both fail), the DOWNSTREAM's failure is returned — the
downstream child is waited first and its non-zero status short-circuits
(run.rs:355-366). -/
theorem pipeline_wait_order (up down : ExitStatus) :
    (up.success = false → down.success = true →
      process_inner_wait (some down) up = up) ∧
    (down.success = false → process_inner_wait (some down) up = down) := by
  constructor
  · intro _ hdown
    simp [process_inner_wait, hdown]
  · intro hdown
    simp [process_inner_wait, hdown]

theorem pipeline_wait_order_witness :
    process_inner_wait (some ⟨some 0⟩) ⟨some 2⟩ = ⟨some 2⟩ ∧
    process_inner_wait (some ⟨some 3⟩) ⟨some 1⟩ = ⟨some 3⟩ :=
  ⟨(pipeline_wait_order ⟨some 2⟩ ⟨some 0⟩).1 (by decide) (by decide),
   (pipeline_wait_order ⟨some 1⟩ ⟨some 3⟩).2 (by decide)⟩

end Makepkg
